import Mathlib

/-!
Shallow embedding of the todo-tree core: the tag-matching engine of
`src/parser.rs` (`TodoParser`) and the aggregation model of `src/scanner.rs`
(`ScanResult`, the scan loop).

Modelling notes, fixed throughout:
* Rust strings are modelled as `List Char` (Unicode scalar values).
* The compiled regex `(?:^|[^a-zA-Z0-9_])({tags})(?:\(([^)]+)\))?[:\s]+(.*)$`
  of `TodoParser::build_pattern` is modelled as an explicit leftmost-first
  backtracking matcher (`scanLine` below): anchors are tried left to right;
  at the leftmost anchor the `^` branch is tried before the
  one-non-word-character branch; tag alternatives are tried in declared
  order; the optional author group is greedy.  This mirrors the regex
  crate's leftmost-first (Perl-like) match semantics.
* The case-insensitive mode of the regex builder is modelled as ASCII case
  folding, and `char::to_uppercase` as ASCII uppercasing; all tag sets in
  the program and in the claims are ASCII.
* `column` is `1 +` the character offset of the tag; the source uses the
  byte offset, and the two coincide on ASCII lines.
* The model of `parse_line` is faithful for input lines that contain no
  newline character (the only inputs it receives from `parse_content`);
  theorems about the value of a successful match carry that hypothesis.
-/

namespace TodoTree

/-- Characters of a Rust string, as a list of Unicode scalar values. -/
abbrev Chars := List Char

/-- The ASCII word characters `[a-zA-Z0-9_]` used by the boundary class of
the pattern. -/
def isWordChar (c : Char) : Bool := c.isAlpha || c.isDigit || c == '_'

/-- Unicode `White_Space` code points: the set matched by the regex class
`\s` and trimmed by Rust `str::trim`. -/
def isWhitespaceU (c : Char) : Bool :=
  let n := c.toNat
  (decide (9 ≤ n) && decide (n ≤ 13)) || decide (n = 32) || decide (n = 0x85) ||
  decide (n = 0xA0) || decide (n = 0x1680) ||
  (decide (0x2000 ≤ n) && decide (n ≤ 0x200A)) ||
  decide (n = 0x2028) || decide (n = 0x2029) || decide (n = 0x202F) ||
  decide (n = 0x205F) || decide (n = 0x3000)

/-- The separator class `[:\s]` of the pattern. -/
def isSepChar (c : Char) : Bool := c == ':' || isWhitespaceU c

/-- Rust `u8::to_ascii_lowercase`, lifted to characters. -/
def asciiLower (c : Char) : Char :=
  if 'A' ≤ c ∧ c ≤ 'Z' then Char.ofNat (c.toNat + 32) else c

/-- Rust `char::to_uppercase`, restricted to its ASCII behaviour. -/
def asciiUpper (c : Char) : Char :=
  if 'a' ≤ c ∧ c ≤ 'z' then Char.ofNat (c.toNat - 32) else c

/-- Character comparison used by the matcher: literal when case-sensitive,
ASCII-folded otherwise. -/
def chEq (case_sensitive : Bool) (a b : Char) : Bool :=
  if case_sensitive then a == b else asciiLower a == asciiLower b

/-- Does `s` start with the tag `t`, under the matcher's case mode? -/
def startsWithFold (cs : Bool) : Chars → Chars → Bool
  | [], _ => true
  | _ :: _, [] => false
  | p :: ps, c :: rest => chEq cs p c && startsWithFold cs ps rest

/-- Rust `str::eq_ignore_ascii_case`. -/
def eqIgnoreAsciiCase : Chars → Chars → Bool
  | [], [] => true
  | [], _ :: _ => false
  | _ :: _, [] => false
  | a :: al, b :: bl => (asciiLower a == asciiLower b) && eqIgnoreAsciiCase al bl

/-- Rust `str::trim`: strip `White_Space` characters from both ends. -/
def trimChars (s : Chars) : Chars :=
  ((s.dropWhile isWhitespaceU).reverse.dropWhile isWhitespaceU).reverse

/-- Plain (case-sensitive) list prefix test, for stating claims. -/
def isPrefixChars : Chars → Chars → Bool
  | [], _ => true
  | _ :: _, [] => false
  | a :: ps, b :: bs => a == b && isPrefixChars ps bs

/-- Plain substring test, for stating claims. -/
def isSubstringChars (pat : Chars) : Chars → Bool
  | [] => pat.isEmpty
  | c :: rest => isPrefixChars pat (c :: rest) || isSubstringChars pat rest

/-- Priority levels for different tag types (`Priority` in `parser.rs`). -/
inductive Priority where
  | Low
  | Medium
  | High
  | Critical
deriving DecidableEq

/-- `Priority::from_tag`: infer priority from the (uppercased) tag name. -/
def Priority.from_tag (tag : Chars) : Priority :=
  let u := tag.map asciiUpper
  if u = "BUG".data ∨ u = "FIXME".data ∨ u = "XXX".data then .Critical
  else if u = "HACK".data ∨ u = "WARN".data ∨ u = "WARNING".data then .High
  else if u = "TODO".data ∨ u = "PERF".data then .Medium
  else if u = "NOTE".data ∨ u = "INFO".data ∨ u = "IDEA".data then .Low
  else .Medium

/-- A found TODO item (`TodoItem` in `parser.rs`). -/
structure TodoItem where
  tag : Chars
  message : Chars
  line : Nat
  column : Nat
  line_content : Chars
  author : Option Chars
  priority : Priority
deriving DecidableEq

/-- The `[:\s]+(.*)$` tail of the pattern: requires at least one separator
character, then captures the rest of the line as the raw message. -/
def sepSplit (s : Chars) : Option Chars :=
  if s.takeWhile isSepChar = [] then none else some (s.dropWhile isSepChar)

/-- The part of the pattern after the tag: the greedy optional author group
`(?:\(([^)]+)\))?` followed by `[:\s]+(.*)$`.  When the next character is
an opening parenthesis the author branch is the only viable one, because
`(` is neither a colon nor whitespace, so the empty branch of `?` can never
let `[:\s]+` succeed there. -/
def matchAfterTag (rest : Chars) : Option (Option Chars × Chars) :=
  match rest with
  | [] => none
  | c :: r1 =>
    if c = '(' then
      match r1.dropWhile (fun d => !(d == ')')) with
      | [] => none
      | _ :: r3 =>
        if r1.takeWhile (fun d => !(d == ')')) = [] then none
        else (sepSplit r3).map (fun m => (some (r1.takeWhile (fun d => !(d == ')'))), m))
    else (sepSplit rest).map (fun m => ((none : Option Chars), m))

/-- Try the tag alternation at a fixed position: alternatives in declared
order, and on failure of the rest of the pattern backtrack to the next
alternative.  Returns (captured tag text, author, raw message). -/
def tryTags (cs : Bool) : List Chars → Chars → Option (Chars × Option Chars × Chars)
  | [], _ => none
  | t :: ts, s =>
    if startsWithFold cs t s then
      match matchAfterTag (s.drop t.length) with
      | some pr => some (s.take t.length, pr.1, pr.2)
      | none => tryTags cs ts s
    else tryTags cs ts s

/-- Anchors after the first: the boundary class consumes one non-word
character and the tag is matched right after it.  `j` is the position of
the consumed character in the full line; the returned number is the
position of the tag. -/
def scanAux (cs : Bool) (tags : List Chars) : Chars → Nat → Option (Nat × Chars × Option Chars × Chars)
  | [], _ => none
  | c :: rest, j =>
    if isWordChar c then scanAux cs tags rest (j + 1)
    else
      match tryTags cs tags rest with
      | some pr => some (j + 1, pr.1, pr.2.1, pr.2.2)
      | none => scanAux cs tags rest (j + 1)

/-- The whole-line match: the `^` branch at the leftmost anchor first, then
the remaining anchors left to right. -/
def scanLine (cs : Bool) (tags : List Chars) (s : Chars) : Option (Nat × Chars × Option Chars × Chars) :=
  match tryTags cs tags s with
  | some pr => some (0, pr.1, pr.2.1, pr.2.2)
  | none => scanAux cs tags s 0

/-- `TodoParser` of `parser.rs`.  The compiled `pattern` field is `None`
exactly when `tags` is empty (`build_pattern`), so it is represented by the
emptiness of `tags`. -/
structure TodoParser where
  tags : List Chars
  case_sensitive : Bool

/-- `TodoParser::new`. -/
def TodoParser.new (tags : List Chars) (case_sensitive : Bool) : TodoParser :=
  ⟨tags, case_sensitive⟩

/-- `TodoParser::parse_line`. -/
def TodoParser.parse_line (p : TodoParser) (line : Chars) (line_number : Nat) : Option TodoItem :=
  if p.tags = [] then none
  else
    match scanLine p.case_sensitive p.tags line with
    | none => none
    | some (tagStart, tagText, author, rawMsg) =>
      let normalized :=
        if p.case_sensitive then tagText
        else ((p.tags.find? (fun t => eqIgnoreAsciiCase t tagText)).getD tagText)
      some { tag := normalized, message := trimChars rawMsg, line := line_number,
             column := tagStart + 1, line_content := line, author := author,
             priority := Priority.from_tag normalized }

/-- Split at newline characters (every occurrence separates). -/
def splitNl : Chars → List Chars
  | [] => [[]]
  | c :: rest =>
    if c = '\n' then [] :: splitNl rest
    else
      match splitNl rest with
      | [] => [[c]]
      | l :: ls => (c :: l) :: ls

/-- Drop one trailing carriage return, as Rust `str::lines` does for CRLF
line endings. -/
def stripTrailingCR (l : Chars) : Chars :=
  match l.reverse with
  | c :: rest => if c = '\r' then rest.reverse else l
  | [] => l

/-- Rust `str::lines`: newline-delimited, terminators not included, a final
line ending produces no trailing empty line. -/
def rustLines (s : Chars) : List Chars :=
  let segs := splitNl s
  let segs2 :=
    match segs.reverse with
    | [] :: rest => rest.reverse
    | _ => segs
  segs2.map stripTrailingCR

/-- `TodoParser::parse_content`: 1-indexed line numbers, line order. -/
def TodoParser.parse_content (p : TodoParser) (content : Chars) : List TodoItem :=
  (rustLines content).enum.filterMap (fun pr => p.parse_line pr.2 (pr.1 + 1))

/-- `ScanResult` of `scanner.rs`.  The two `HashMap`s are modelled as
association lists in insertion order; real `HashMap`s additionally satisfy
the representation invariant that keys are pairwise distinct. -/
structure ScanResult where
  files : List (Chars × List TodoItem)
  total_count : Nat
  files_scanned : Nat
  files_with_todos : Nat
  tag_counts : List (Chars × Nat)
  root : Chars
deriving DecidableEq

/-- `ScanResult::new`. -/
def ScanResult.new (root : Chars) : ScanResult :=
  ⟨[], 0, 0, 0, [], root⟩

/-- `HashMap::insert`: replace the value at an existing key, otherwise add
a new entry. -/
def insertMap (k : Chars) (v : List TodoItem) : List (Chars × List TodoItem) → List (Chars × List TodoItem)
  | [] => [(k, v)]
  | (k2, v2) :: rest => if k2 = k then (k, v) :: rest else (k2, v2) :: insertMap k v rest

/-- `*tag_counts.entry(tag).or_insert(0) += 1`. -/
def bumpTag (k : Chars) : List (Chars × Nat) → List (Chars × Nat)
  | [] => [(k, 1)]
  | (k2, n) :: rest => if k2 = k then (k2, n + 1) :: rest else (k2, n) :: bumpTag k rest

/-- `ScanResult::add_file`. -/
def ScanResult.add_file (r : ScanResult) (path : Chars) (items : List TodoItem) : ScanResult :=
  let r1 := { r with files_scanned := r.files_scanned + 1 }
  if items = [] then r1
  else
    { r1 with
      files_with_todos := r1.files_with_todos + 1,
      total_count := r1.total_count + items.length,
      tag_counts := items.foldl (fun tc item => bumpTag item.tag tc) r1.tag_counts,
      files := insertMap path items r1.files }

/-- `ScanResult::filter_by_tag`. -/
def ScanResult.filter_by_tag (r : ScanResult) (tag : Chars) : ScanResult :=
  r.files.foldl
    (fun acc pr =>
      let filtered := pr.2.filter (fun item => eqIgnoreAsciiCase item.tag tag)
      if filtered = [] then acc else acc.add_file pr.1 filtered)
    { ScanResult.new r.root with files_scanned := r.files_scanned }

/-- One entry handed to the scan loop by the (external) walker, together
with the outcome of reading it: `fileOk` carries the content a successful
`fs::read_to_string` returned, `fileUnreadable` stands for a read failure
(non-UTF8, permissions, vanished file). -/
inductive WalkEntry where
  | errEntry
  | dirEntry (path : Chars)
  | nonFileEntry (path : Chars)
  | fileOk (path : Chars) (content : Chars)
  | fileUnreadable (path : Chars)

/-- The body of the walk loop in `Scanner::scan` (lines 204-237 of
`scanner.rs`).  It is a total function: per-entry and per-file failures
are absorbed, never returned as errors. -/
def scanStep (p : TodoParser) (r : ScanResult) : WalkEntry → ScanResult
  | .errEntry => r
  | .dirEntry _ => r
  | .nonFileEntry _ => r
  | .fileOk path content => r.add_file path (p.parse_content content)
  | .fileUnreadable _ => { r with files_scanned := r.files_scanned + 1 }

/-- `Scanner::scan` after root resolution: fold the loop body over the
walker's entry stream, starting from an empty result. -/
def Scanner.scan (p : TodoParser) (root : Chars) (entries : List WalkEntry) : ScanResult :=
  entries.foldl (scanStep p) (ScanResult.new root)

/-- Sum of the lengths of the per-file match lists. -/
def sumLens (files : List (Chars × List TodoItem)) : Nat :=
  (files.map (fun pr => pr.2.length)).sum

/-- Sum of the per-tag counts. -/
def sumCounts (tc : List (Chars × Nat)) : Nat := (tc.map Prod.snd).sum

/-- The four `ScanResult` invariants of spec section 3. -/
def ScanResult.invariants (r : ScanResult) : Prop :=
  r.total_count = sumLens r.files ∧
  r.files_with_todos = r.files.length ∧
  sumCounts r.tag_counts = r.total_count ∧
  r.files_with_todos ≤ r.files_scanned

instance (r : ScanResult) : Decidable r.invariants := by
  unfold ScanResult.invariants
  infer_instance

/-- A fresh `ScanResult` mutated by a sequence of `add_file` calls. -/
def runAddFiles (root : Chars) (calls : List (Chars × List TodoItem)) : ScanResult :=
  calls.foldl (fun r c => r.add_file c.1 c.2) (ScanResult.new root)

/-- The default tag list of the parser unit tests. -/
def defaultTags : List Chars :=
  ["TODO".data, "FIXME".data, "BUG".data, "NOTE".data, "HACK".data]

example :
    (TodoParser.new defaultTags false).parse_line ("// TODO: Fix this later").data 1 =
      some { tag := "TODO".data, message := "Fix this later".data, line := 1,
             column := 4, line_content := ("// TODO: Fix this later").data,
             author := none, priority := .Medium } := by decide

example :
    ((TodoParser.new defaultTags false).parse_line ("// TODO(john): Implement this").data 5).map
      (fun i => (i.tag, i.author, i.message)) =
      some ("TODO".data, some "john".data, "Implement this".data) := by decide

example :
    ((TodoParser.new defaultTags false).parse_line ("# FIXME: This is broken").data 1).map
      (fun i => (i.tag, i.message)) = some ("FIXME".data, "This is broken".data) := by decide

example :
    ((TodoParser.new defaultTags false).parse_line ("// todo: lowercase").data 1).map
      (fun i => i.tag) = some "TODO".data := by decide

example :
    (TodoParser.new defaultTags true).parse_line ("// todo: lowercase").data 1 = none := by decide

example :
    ((TodoParser.new defaultTags false).parse_line ("// TODO fix this").data 1).map
      (fun i => i.message) = some "fix this".data := by decide

example :
    (TodoParser.new [] false).parse_line ("// TODO: something").data 1 = none := by decide

example :
    ((TodoParser.new defaultTags false).parse_content
        ("\n// Regular comment\n// TODO: First item\nfn main() \x7b\x7d\n// FIXME: Second item\n// NOTE: Third item\n").data).map
      (fun i => (i.line, i.tag)) =
      [(3, "TODO".data), (5, "FIXME".data), (6, "NOTE".data)] := by decide

example :
    (TodoParser.new defaultTags false).parse_line ("// TODO(): x").data 1 = none := by decide

example :
    (TodoParser.new ["TODO".data] false).parse_line ("AUTODOC something").data 1 = none := by decide

/-- A concrete match used as input data for counterexamples and witnesses. -/
def sampleItem : TodoItem :=
  { tag := "TODO".data, message := "x".data, line := 1, column := 1,
    line_content := "TODO: x".data, author := none, priority := .Medium }

lemma sumCounts_bumpTag (k : Chars) (tc : List (Chars × Nat)) :
    sumCounts (bumpTag k tc) = sumCounts tc + 1 := by
  induction tc with
  | nil => simp [bumpTag, sumCounts]
  | cons hd rest ih =>
    obtain ⟨k2, n⟩ := hd
    by_cases hk : k2 = k
    · simp [bumpTag, hk, sumCounts]
      omega
    · simp [bumpTag, hk, sumCounts] at ih ⊢
      omega

lemma sumCounts_foldl_bump (items : List TodoItem) :
    ∀ tc, sumCounts (items.foldl (fun tc it => bumpTag it.tag tc) tc) =
      sumCounts tc + items.length := by
  induction items with
  | nil => simp
  | cons it rest ih =>
    intro tc
    simp only [List.foldl_cons, List.length_cons]
    rw [ih, sumCounts_bumpTag]
    omega

lemma insertMap_of_not_mem {k : Chars} {l : List (Chars × List TodoItem)}
    (hp : k ∉ l.map Prod.fst) (v : List TodoItem) :
    insertMap k v l = l ++ [(k, v)] := by
  induction l with
  | nil => rfl
  | cons hd rest ih =>
    obtain ⟨k2, v2⟩ := hd
    simp only [List.map_cons, List.mem_cons] at hp
    push_neg at hp
    simp [insertMap, Ne.symm hp.1, ih hp.2]

lemma mem_keys_insertMap {q k : Chars} {v : List TodoItem} :
    ∀ {l : List (Chars × List TodoItem)},
      q ∈ (insertMap k v l).map Prod.fst → q ∈ l.map Prod.fst ∨ q = k := by
  intro l
  induction l with
  | nil =>
    intro h
    simp only [insertMap, List.map_cons, List.map_nil, List.mem_cons,
      List.not_mem_nil, or_false] at h
    exact Or.inr h
  | cons hd rest ih =>
    obtain ⟨k2, v2⟩ := hd
    intro h
    by_cases hk : k2 = k
    · simp only [insertMap, if_pos hk, List.map_cons, List.mem_cons] at h
      rcases h with h | h
      · exact Or.inr h
      · exact Or.inl (by simp only [List.map_cons, List.mem_cons]; exact Or.inr h)
    · simp only [insertMap, if_neg hk, List.map_cons, List.mem_cons] at h
      rcases h with h | h
      · exact Or.inl (by simp only [List.map_cons, List.mem_cons]; exact Or.inl h)
      · rcases ih h with h2 | h2
        · exact Or.inl (by simp only [List.map_cons, List.mem_cons]; exact Or.inr h2)
        · exact Or.inr h2

lemma sumLens_append_single (l : List (Chars × List TodoItem)) (p : Chars)
    (items : List TodoItem) :
    sumLens (l ++ [(p, items)]) = sumLens l + items.length := by
  simp [sumLens]

/-- `add_file` on a path not yet present, with a non-empty item list, written
out field by field. -/
lemma add_file_explicit {r : ScanResult} {path : Chars} {items : List TodoItem}
    (hp : path ∉ r.files.map Prod.fst) (hne : items ≠ []) :
    r.add_file path items =
      { files := r.files ++ [(path, items)],
        total_count := r.total_count + items.length,
        files_scanned := r.files_scanned + 1,
        files_with_todos := r.files_with_todos + 1,
        tag_counts := items.foldl (fun tc it => bumpTag it.tag tc) r.tag_counts,
        root := r.root } := by
  simp [ScanResult.add_file, hne, insertMap_of_not_mem hp]

lemma mem_keys_add_file {q : Chars} {r : ScanResult} {path : Chars}
    {items : List TodoItem}
    (h : q ∈ (r.add_file path items).files.map Prod.fst) :
    q ∈ r.files.map Prod.fst ∨ q = path := by
  by_cases hne : items = []
  · simp only [ScanResult.add_file, if_pos hne] at h
    exact Or.inl h
  · simp only [ScanResult.add_file, if_neg hne] at h
    exact mem_keys_insertMap h

lemma add_file_invariants {r : ScanResult} {path : Chars} {items : List TodoItem}
    (hp : path ∉ r.files.map Prod.fst) (h : r.invariants) :
    (r.add_file path items).invariants := by
  obtain ⟨h1, h2, h3, h4⟩ := h
  by_cases hne : items = []
  · refine ⟨?_, ?_, ?_, ?_⟩ <;> simp [ScanResult.add_file, hne, h1, h2, h3]
    omega
  · rw [add_file_explicit hp hne]
    refine ⟨?_, ?_, ?_, ?_⟩
    · simp [sumLens_append_single, h1]
    · simp [h2]
    · simp [sumCounts_foldl_bump, h3]
    · simp; omega

lemma runAddFiles_invariants_aux :
    ∀ (calls : List (Chars × List TodoItem)) (r : ScanResult),
      r.invariants →
      (∀ q ∈ r.files.map Prod.fst, q ∉ calls.map Prod.fst) →
      (calls.map Prod.fst).Nodup →
      (calls.foldl (fun a c => a.add_file c.1 c.2) r).invariants := by
  intro calls
  induction calls with
  | nil => intro r h _ _; simpa using h
  | cons c rest ih =>
    intro r h hdisj hnd
    simp only [List.map_cons, List.nodup_cons] at hnd
    simp only [List.foldl_cons]
    apply ih
    · apply add_file_invariants _ h
      intro hmem
      exact hdisj c.1 hmem (by simp)
    · intro q hq
      rcases mem_keys_add_file hq with h2 | h2
      · have := hdisj q h2
        simp only [List.map_cons, List.mem_cons] at this
        push_neg at this
        exact this.2
      · rw [h2]
        exact hnd.1
    · exact hnd.2

/-- C1 (amended): starting from an empty `ScanResult`, any sequence of
`add_file` calls whose paths are pairwise distinct leaves the four
invariants true. -/
theorem runAddFiles_invariants (root : Chars) (calls : List (Chars × List TodoItem))
    (h : (calls.map Prod.fst).Nodup) : (runAddFiles root calls).invariants := by
  apply runAddFiles_invariants_aux calls (ScanResult.new root)
  · exact ⟨rfl, rfl, rfl, Nat.le_refl 0⟩
  · intro q hq
    simp [ScanResult.new] at hq
  · exact h

/-- C1 witness: a concrete two-call sequence with distinct paths, one call
with an empty item list, satisfies the invariants. -/
theorem runAddFiles_invariants_witness :
    (([("a".data, [sampleItem]), ("b".data, ([] : List TodoItem))].map Prod.fst).Nodup) ∧
    (runAddFiles "r".data [("a".data, [sampleItem]), ("b".data, [])]).invariants :=
  ⟨by decide, runAddFiles_invariants "r".data _ (by decide)⟩

/-- C1 counterexample: calling `add_file` twice with the same path and a
non-empty item list breaks the invariants — `HashMap::insert` replaces the
stored entry while `total_count` and `files_with_todos` are incremented
again, so the claim fails for sequences with repeated paths. -/
theorem runAddFiles_repeated_path_breaks_invariants :
    ¬ (runAddFiles "r".data
        [("a".data, [sampleItem]), ("a".data, [sampleItem])]).invariants := by
  decide

/-- C5: a matcher constructed from an empty tag set is inert rather than
erroring: construction is total and `parse_line` returns no match on any
input line and line number. -/
theorem parse_line_empty_tags_inert (cs : Bool) (line : Chars) (n : Nat) :
    (TodoParser.new [] cs).parse_line line n = none := rfl

/-- C6: a file whose content cannot be read is a recoverable condition:
the loop body of `Scanner::scan` (a total function, so no error is
returned because of the file) increments `files_scanned` for it and leaves
every other field of the accumulating `ScanResult` unchanged. -/
theorem scan_unreadable_file_recoverable (p : TodoParser) (r : ScanResult) (path : Chars) :
    (scanStep p r (.fileUnreadable path)).files_scanned = r.files_scanned + 1 ∧
    (scanStep p r (.fileUnreadable path)).files = r.files ∧
    (scanStep p r (.fileUnreadable path)).total_count = r.total_count ∧
    (scanStep p r (.fileUnreadable path)).files_with_todos = r.files_with_todos ∧
    (scanStep p r (.fileUnreadable path)).tag_counts = r.tag_counts ∧
    (scanStep p r (.fileUnreadable path)).root = r.root :=
  ⟨rfl, rfl, rfl, rfl, rfl, rfl⟩

/-- C7: `add_file` with an empty match list increments `files_scanned` by
one and leaves every other field unchanged. -/
theorem add_file_empty_frame (r : ScanResult) (path : Chars) :
    (r.add_file path []).files_scanned = r.files_scanned + 1 ∧
    (r.add_file path []).files = r.files ∧
    (r.add_file path []).total_count = r.total_count ∧
    (r.add_file path []).files_with_todos = r.files_with_todos ∧
    (r.add_file path []).tag_counts = r.tag_counts ∧
    (r.add_file path []).root = r.root := by
  refine ⟨?_, ?_, ?_, ?_, ?_, ?_⟩ <;> simp [ScanResult.add_file]

/-- C8: the line `// TODO(john): Implement this` with tags TODO, FIXME and
case-insensitive matching yields tag `TODO`, author `john` and message
`Implement this`. -/
theorem parse_line_scenario_author :
    (TodoParser.new ["TODO".data, "FIXME".data] false).parse_line
        ("// TODO(john): Implement this").data 1 =
      some { tag := "TODO".data, message := "Implement this".data, line := 1,
             column := 4, line_content := ("// TODO(john): Implement this").data,
             author := some "john".data, priority := .Medium } := by
  decide

/-- C9: the three-line content yields exactly two matches, in line order,
with 1-indexed line numbers 1 and 3. -/
theorem parse_content_scenario_lines :
    ((TodoParser.new ["TODO".data, "FIXME".data] false).parse_content
        ("// TODO: First\nfn x()\x7b\x7d\n// FIXME: Second").data).map
      (fun i => (i.line, i.tag)) = [(1, "TODO".data), (3, "FIXME".data)] := by
  decide

/-- Is the character at index `i` an ASCII word character? (False past the
end of the list.) -/
def wordCharAt (s : Chars) (i : Nat) : Bool :=
  match s[i]? with
  | some c => isWordChar c
  | none => false

lemma wordCharAt_cons (c : Char) (rest : Chars) (k : Nat) :
    wordCharAt (c :: rest) (k + 1) = wordCharAt rest k := by
  simp [wordCharAt]

lemma tryTags_some {cs : Bool} {out : Chars × Option Chars × Chars} :
    ∀ {ts : List Chars} {s : Chars}, tryTags cs ts s = some out →
      ∃ t ∈ ts, startsWithFold cs t s = true ∧
        (matchAfterTag (s.drop t.length)).isSome = true := by
  intro ts
  induction ts with
  | nil => intro s h; simp [tryTags] at h
  | cons t rest ih =>
    intro s h
    by_cases hs : startsWithFold cs t s = true
    · rw [tryTags, if_pos hs] at h
      cases hm : matchAfterTag (s.drop t.length) with
      | none =>
        rw [hm] at h
        rcases ih h with ⟨t2, ht2, h1, h2⟩
        exact ⟨t2, List.mem_cons_of_mem _ ht2, h1, h2⟩
      | some pr =>
        exact ⟨t, List.mem_cons_self _ _, hs, by rw [hm]; rfl⟩
    · rw [tryTags, if_neg hs] at h
      rcases ih h with ⟨t2, ht2, h1, h2⟩
      exact ⟨t2, List.mem_cons_of_mem _ ht2, h1, h2⟩

lemma scanAux_some {cs : Bool} {tags : List Chars} {out : Nat × Chars × Option Chars × Chars} :
    ∀ {s : Chars} {j : Nat}, scanAux cs tags s j = some out →
      ∃ k, k < s.length ∧ wordCharAt s k = false ∧
        ∃ t ∈ tags, startsWithFold cs t (s.drop (k + 1)) = true ∧
          (matchAfterTag (s.drop (k + 1 + t.length))).isSome = true := by
  intro s
  induction s with
  | nil => intro j h; simp [scanAux] at h
  | cons c rest ih =>
    intro j h
    by_cases hw : isWordChar c = true
    · rw [scanAux, if_pos hw] at h
      rcases ih h with ⟨k, hk, hwk, t, ht, h1, h2⟩
      refine ⟨k + 1, by simpa using Nat.succ_lt_succ hk, ?_, t, ht, ?_, ?_⟩
      · rw [wordCharAt_cons]; exact hwk
      · exact h1
      · have he : (c :: rest).drop (k + 1 + 1 + t.length) = rest.drop (k + 1 + t.length) := by
          rw [show k + 1 + 1 + t.length = (k + 1 + t.length) + 1 from by omega]
          rfl
        rw [he]
        exact h2
    · rw [scanAux, if_neg hw] at h
      cases hm : tryTags cs tags rest with
      | some pr =>
        rcases tryTags_some hm with ⟨t, ht, h1, h2⟩
        refine ⟨0, by simp, ?_, t, ht, h1, ?_⟩
        · simp only [wordCharAt]
          simpa using hw
        · have he : (c :: rest).drop (0 + 1 + t.length) = rest.drop t.length := by
            rw [show 0 + 1 + t.length = t.length + 1 from by omega]
            rfl
          rw [he]
          exact h2
      | none =>
        rw [hm] at h
        rcases ih h with ⟨k, hk, hwk, t, ht, h1, h2⟩
        refine ⟨k + 1, by simpa using Nat.succ_lt_succ hk,
          by rw [wordCharAt_cons]; exact hwk, t, ht, h1, ?_⟩
        have he : (c :: rest).drop (k + 1 + 1 + t.length) = rest.drop (k + 1 + t.length) := by
          rw [show k + 1 + 1 + t.length = (k + 1 + t.length) + 1 from by omega]
          rfl
        rw [he]
        exact h2

lemma scanLine_some {cs : Bool} {tags : List Chars} {s : Chars}
    {out : Nat × Chars × Option Chars × Chars}
    (h : scanLine cs tags s = some out) :
    (∃ t ∈ tags, startsWithFold cs t s = true ∧
      (matchAfterTag (s.drop t.length)).isSome = true) ∨
    (∃ k, k < s.length ∧ wordCharAt s k = false ∧
      ∃ t ∈ tags, startsWithFold cs t (s.drop (k + 1)) = true ∧
        (matchAfterTag (s.drop (k + 1 + t.length))).isSome = true) := by
  unfold scanLine at h
  cases hm : tryTags cs tags s with
  | some pr => exact Or.inl (tryTags_some hm)
  | none => rw [hm] at h; exact Or.inr (scanAux_some h)

/-- C4: when every occurrence of a configured tag in the line is immediately
preceded by an alphanumeric or underscore character — the tag is embedded
inside a longer identifier — `parse_line` returns no match. -/
theorem parse_line_embedded_tag_no_match (p : TodoParser) (line : Chars) (n : Nat)
    (hocc : ∀ t ∈ p.tags, ∀ j ≤ line.length,
      startsWithFold p.case_sensitive t (line.drop j) = true →
      0 < j ∧ wordCharAt line (j - 1) = true) :
    p.parse_line line n = none := by
  unfold TodoParser.parse_line
  split
  · rfl
  · cases hsl : scanLine p.case_sensitive p.tags line with
    | none => rfl
    | some out =>
      exfalso
      rcases scanLine_some hsl with ⟨t, ht, hs, _⟩ | ⟨k, hk, hw, t, ht, hs, _⟩
      · have h0 := hocc t ht 0 (Nat.zero_le _) (by simpa using hs)
        exact absurd h0.1 (lt_irrefl 0)
      · have h1 := hocc t ht (k + 1) (by omega) hs
        rw [Nat.add_sub_cancel, hw] at h1
        exact Bool.false_ne_true h1.2

/-- C4 witness: with tag TODO (case-insensitive), every occurrence of TODO
in `AUTODOC something` is preceded by a word character, and the line yields
no match. -/
theorem parse_line_embedded_tag_no_match_witness :
    (∀ t ∈ (TodoParser.new ["TODO".data] false).tags,
      ∀ j ≤ ("AUTODOC something").data.length,
        startsWithFold false t (("AUTODOC something").data.drop j) = true →
        0 < j ∧ wordCharAt ("AUTODOC something").data (j - 1) = true) ∧
    (TodoParser.new ["TODO".data] false).parse_line ("AUTODOC something").data 1 = none :=
  ⟨by decide, parse_line_embedded_tag_no_match _ _ _ (by decide)⟩

lemma isPrefixChars_exists : ∀ {p s : Chars},
    isPrefixChars p s = true → ∃ r, s = p ++ r := by
  intro p
  induction p with
  | nil => intro s _; exact ⟨s, rfl⟩
  | cons a ps ih =>
    intro s h
    cases s with
    | nil => simp [isPrefixChars] at h
    | cons b bs =>
      simp only [isPrefixChars, Bool.and_eq_true, beq_iff_eq] at h
      rcases ih h.2 with ⟨r, hr⟩
      exact ⟨r, by rw [hr, ← h.1, List.cons_append]⟩

lemma matchAfterTag_empty_parens (rest : Chars) :
    matchAfterTag ('(' :: ')' :: rest) = none := by
  simp [matchAfterTag]

/-- C10: if every occurrence of a configured tag in the line is immediately
followed by an empty pair of parentheses and then a colon, `parse_line`
returns no match: the author group requires at least one character inside
the parentheses, and the opening parenthesis cannot serve as the required
colon-or-whitespace separator. -/
theorem parse_line_empty_author_no_match (p : TodoParser) (line : Chars) (n : Nat)
    (hocc : ∀ t ∈ p.tags, ∀ j ≤ line.length,
      startsWithFold p.case_sensitive t (line.drop j) = true →
      isPrefixChars ("():").data (line.drop (j + t.length)) = true) :
    p.parse_line line n = none := by
  unfold TodoParser.parse_line
  split
  · rfl
  · cases hsl : scanLine p.case_sensitive p.tags line with
    | none => rfl
    | some out =>
      exfalso
      rcases scanLine_some hsl with ⟨t, ht, hs, hm⟩ | ⟨k, hk, _, t, ht, hs, hm⟩
      · have hp := hocc t ht 0 (Nat.zero_le _) (by simpa using hs)
        rw [Nat.zero_add] at hp
        rcases isPrefixChars_exists hp with ⟨r, hr⟩
        rw [hr, show ("():").data ++ r = '(' :: ')' :: (':' :: r) from rfl,
          matchAfterTag_empty_parens] at hm
        exact Bool.false_ne_true hm
      · have hp := hocc t ht (k + 1) (by omega) hs
        rcases isPrefixChars_exists hp with ⟨r, hr⟩
        rw [hr, show ("():").data ++ r = '(' :: ')' :: (':' :: r) from rfl,
          matchAfterTag_empty_parens] at hm
        exact Bool.false_ne_true hm

/-- C10 witness: with tags TODO, FIXME (case-insensitive), the only tag
occurrence in `// TODO(): x` is followed by `():`, and the line yields no
match. -/
theorem parse_line_empty_author_no_match_witness :
    (∀ t ∈ (TodoParser.new ["TODO".data, "FIXME".data] false).tags,
      ∀ j ≤ ("// TODO(): x").data.length,
        startsWithFold false t (("// TODO(): x").data.drop j) = true →
        isPrefixChars ("():").data (("// TODO(): x").data.drop (j + t.length)) = true) ∧
    (TodoParser.new ["TODO".data, "FIXME".data] false).parse_line ("// TODO(): x").data 1 = none :=
  ⟨by decide, parse_line_empty_author_no_match _ _ _ (by decide)⟩

/-- Does the message avoid starting with a separator character?  Under this
condition the raw captured message is exactly the text after the two
separator characters of the line shape below. -/
def headNotSep (msg : Chars) : Bool :=
  match msg with
  | [] => true
  | c :: _ => !(isSepChar c)

lemma chEq_refl (cs : Bool) (a : Char) : chEq cs a a = true := by
  cases cs <;> simp [chEq]

lemma startsWithFold_append_self (cs : Bool) : ∀ (t r : Chars),
    startsWithFold cs t (t ++ r) = true := by
  intro t
  induction t with
  | nil => intro r; rfl
  | cons a ps ih => intro r; simp [startsWithFold, chEq_refl, ih]

lemma eqIgnoreAsciiCase_refl : ∀ (t : Chars), eqIgnoreAsciiCase t t = true := by
  intro t
  induction t with
  | nil => rfl
  | cons a ps ih => simp [eqIgnoreAsciiCase, ih]

lemma sepSplit_colon_space {msg : Chars} (h : headNotSep msg = true) :
    sepSplit (':' :: ' ' :: msg) = some msg := by
  have hc : isSepChar ':' = true := by decide
  have hs : isSepChar ' ' = true := by decide
  cases msg with
  | nil => decide
  | cons c rest =>
    simp only [headNotSep, Bool.not_eq_true'] at h
    simp [sepSplit, hc, hs, h]

lemma matchAfterTag_colon_space {msg : Chars} (h : headNotSep msg = true) :
    matchAfterTag (':' :: ' ' :: msg) = some (none, msg) := by
  simp [matchAfterTag, sepSplit_colon_space h]

lemma tryTags_head_colon_space {cs : Bool} {t : Chars} (rest_tags : List Chars)
    {msg : Chars} (h : headNotSep msg = true) :
    tryTags cs (t :: rest_tags) (t ++ ':' :: ' ' :: msg) = some (t, none, msg) := by
  rw [tryTags, if_pos (startsWithFold_append_self cs t _)]
  rw [show (t ++ ':' :: ' ' :: msg).drop t.length = ':' :: ' ' :: msg from
    List.drop_left t _]
  rw [matchAfterTag_colon_space h]
  rw [show (t ++ ':' :: ' ' :: msg).take t.length = t from List.take_left t _]

lemma scanLine_head_colon_space (cs : Bool) (t : Chars) (rest_tags : List Chars)
    {msg : Chars} (h : headNotSep msg = true) :
    scanLine cs (t :: rest_tags) (t ++ ':' :: ' ' :: msg) = some (0, t, none, msg) := by
  unfold scanLine
  rw [tryTags_head_colon_space rest_tags h]

/-- C2 counterexample: the line `XTODO: message` contains the substring
`TODO: message`, yet `parse_line` with tag set TODO returns no match (the
occurrence is preceded by a word character), so the claim as stated fails. -/
theorem parse_line_substring_claim_false :
    isSubstringChars ("TODO: message").data ("XTODO: message").data = true ∧
    (TodoParser.new ["TODO".data] false).parse_line ("XTODO: message").data 1 = none := by
  decide

/-- C2 (amended): for every tag list headed by tag `t`, either case mode,
and every line of the form `t ++ ": " ++ msg` where `msg` does not begin
with a colon or whitespace and contains no newline, `parse_line` returns a
match whose tag field is `t` (the case-normalized form, since the line
carries `t` literally and `t` is first in the configured list) and whose
message field is the trailing text after the separator, trimmed. -/
theorem parse_line_leading_tag (t : Chars) (rest_tags : List Chars) (cs : Bool)
    (msg : Chars) (n : Nat) (hmsg : headNotSep msg = true) (hnl : '\n' ∉ msg) :
    (TodoParser.new (t :: rest_tags) cs).parse_line (t ++ ':' :: ' ' :: msg) n =
      some { tag := t, message := trimChars msg, line := n, column := 1,
             line_content := t ++ ':' :: ' ' :: msg, author := none,
             priority := Priority.from_tag t } := by
  have hsl := scanLine_head_colon_space cs t rest_tags hmsg
  simp only [TodoParser.parse_line, TodoParser.new]
  rw [if_neg (List.cons_ne_nil t rest_tags)]
  rw [hsl]
  cases cs with
  | true => rfl
  | false =>
    have hf : (t :: rest_tags).find? (fun u => eqIgnoreAsciiCase u t) = some t :=
      List.find?_cons_of_pos _ (eqIgnoreAsciiCase_refl t)
    simp [hf]

/-- C2 witness: the amended statement applied at tags TODO, FIXME and the
line `TODO: hello world`. -/
theorem parse_line_leading_tag_witness :
    headNotSep ("hello world").data = true ∧ '\n' ∉ ("hello world").data ∧
    (TodoParser.new ("TODO".data :: ["FIXME".data]) false).parse_line
        ("TODO".data ++ ':' :: ' ' :: ("hello world").data) 1 =
      some { tag := "TODO".data, message := trimChars ("hello world").data,
             line := 1, column := 1,
             line_content := "TODO".data ++ ':' :: ' ' :: ("hello world").data,
             author := none, priority := Priority.from_tag "TODO".data } :=
  ⟨by decide, by decide,
    parse_line_leading_tag "TODO".data ["FIXME".data] false ("hello world").data 1
      (by decide) (by decide)⟩

/-- The loop body of `filter_by_tag`, as a named function (the `let`-bound
closure of the source, zeta-reduced). -/
def filterStep (tag : Chars) (acc : ScanResult) (pr : Chars × List TodoItem) : ScanResult :=
  if pr.2.filter (fun item => eqIgnoreAsciiCase item.tag tag) = [] then acc
  else acc.add_file pr.1 (pr.2.filter (fun item => eqIgnoreAsciiCase item.tag tag))

lemma filter_by_tag_eq_foldl (r : ScanResult) (tag : Chars) :
    r.filter_by_tag tag = r.files.foldl (filterStep tag)
      { ScanResult.new r.root with files_scanned := r.files_scanned } := rfl

/-- The entry a file of the parent contributes to the filtered result:
nothing when no match survives, otherwise the path with the surviving
matches. -/
def filterEntry (tag : Chars) (pr : Chars × List TodoItem) : Option (Chars × List TodoItem) :=
  if pr.2.filter (fun item => eqIgnoreAsciiCase item.tag tag) = [] then none
  else some (pr.1, pr.2.filter (fun item => eqIgnoreAsciiCase item.tag tag))

/-- The files of the filtered result, per entry of the parent. -/
def filteredFiles (tag : Chars) (files : List (Chars × List TodoItem)) :
    List (Chars × List TodoItem) :=
  files.filterMap (filterEntry tag)

/-- Tag counts accumulated over a list of file entries. -/
def tagCountsOf (files : List (Chars × List TodoItem)) (tc : List (Chars × Nat)) :
    List (Chars × Nat) :=
  files.foldl (fun tc pr => pr.2.foldl (fun tc it => bumpTag it.tag tc) tc) tc

lemma filter_by_tag_foldl_spec (tag : Chars) :
    ∀ (l : List (Chars × List TodoItem)) (acc : ScanResult),
      (l.map Prod.fst).Nodup →
      (∀ q ∈ acc.files.map Prod.fst, q ∉ l.map Prod.fst) →
      l.foldl (filterStep tag) acc =
        { files := acc.files ++ filteredFiles tag l,
          total_count := acc.total_count + sumLens (filteredFiles tag l),
          files_scanned := acc.files_scanned + (filteredFiles tag l).length,
          files_with_todos := acc.files_with_todos + (filteredFiles tag l).length,
          tag_counts := tagCountsOf (filteredFiles tag l) acc.tag_counts,
          root := acc.root } := by
  intro l
  induction l with
  | nil =>
    intro acc _ _
    simp [filteredFiles, tagCountsOf, sumLens]
  | cons pr rest ih =>
    intro acc hnd hdisj
    simp only [List.map_cons, List.nodup_cons] at hnd
    simp only [List.foldl_cons]
    by_cases hf : pr.2.filter (fun item => eqIgnoreAsciiCase item.tag tag) = []
    · have hE : filterEntry tag pr = none := by simp [filterEntry, hf]
      rw [show filterStep tag acc pr = acc from by simp [filterStep, hf]]
      rw [ih acc hnd.2 (fun q hq => fun hmem =>
        hdisj q hq (by simp only [List.map_cons, List.mem_cons]; exact Or.inr hmem))]
      simp only [filteredFiles, List.filterMap_cons, hE]
    · have hE : filterEntry tag pr =
          some (pr.1, pr.2.filter (fun item => eqIgnoreAsciiCase item.tag tag)) := by
        simp [filterEntry, hf]
      have hp : pr.1 ∉ acc.files.map Prod.fst := fun hmem =>
        hdisj pr.1 hmem (by simp)
      rw [show filterStep tag acc pr =
        acc.add_file pr.1 (pr.2.filter (fun item => eqIgnoreAsciiCase item.tag tag)) from
        by simp [filterStep, hf]]
      rw [add_file_explicit hp hf]
      rw [ih _ hnd.2 ?_]
      · simp only [filteredFiles, List.filterMap_cons, hE]
        simp only [List.append_assoc, List.singleton_append, sumLens, List.map_cons,
          List.sum_cons, List.length_cons, tagCountsOf, List.foldl_cons]
        congr 1
        all_goals omega
      · intro q hq
        simp only [List.map_append, List.map_cons, List.map_nil, List.mem_append,
          List.mem_cons, List.not_mem_nil, or_false] at hq
        rcases hq with hq | hq
        · exact fun hmem => hdisj q hq
            (by simp only [List.map_cons, List.mem_cons]; exact Or.inr hmem)
        · rw [hq]; exact hnd.1

/-- `filter_by_tag` written out field by field, for a parent whose file
keys are pairwise distinct (the `HashMap` representation invariant). -/
lemma filter_by_tag_spec (r : ScanResult) (tag : Chars)
    (h : (r.files.map Prod.fst).Nodup) :
    r.filter_by_tag tag =
      { files := filteredFiles tag r.files,
        total_count := sumLens (filteredFiles tag r.files),
        files_scanned := r.files_scanned + (filteredFiles tag r.files).length,
        files_with_todos := (filteredFiles tag r.files).length,
        tag_counts := tagCountsOf (filteredFiles tag r.files) [],
        root := r.root } := by
  rw [filter_by_tag_eq_foldl]
  rw [filter_by_tag_foldl_spec tag r.files _ h (by intro q hq; simp [ScanResult.new] at hq)]
  simp [ScanResult.new]

lemma keys_filteredFiles_sublist (tag : Chars) : ∀ (l : List (Chars × List TodoItem)),
    ((filteredFiles tag l).map Prod.fst).Sublist (l.map Prod.fst) := by
  intro l
  induction l with
  | nil => simp [filteredFiles]
  | cons pr rest ih =>
    by_cases hf : pr.2.filter (fun item => eqIgnoreAsciiCase item.tag tag) = []
    · have hE : filterEntry tag pr = none := by simp [filterEntry, hf]
      simp only [filteredFiles, List.filterMap_cons, hE, List.map_cons]
      exact ih.cons _
    · have hE : filterEntry tag pr =
          some (pr.1, pr.2.filter (fun item => eqIgnoreAsciiCase item.tag tag)) := by
        simp [filterEntry, hf]
      simp only [filteredFiles, List.filterMap_cons, hE, List.map_cons]
      exact ih.cons₂ _

lemma filter_eqIgnore_idem (tag : Chars) (l : List TodoItem) :
    (l.filter (fun item => eqIgnoreAsciiCase item.tag tag)).filter
      (fun item => eqIgnoreAsciiCase item.tag tag) =
    l.filter (fun item => eqIgnoreAsciiCase item.tag tag) := by
  rw [List.filter_filter]
  simp

lemma filteredFiles_idem (tag : Chars) : ∀ (l : List (Chars × List TodoItem)),
    filteredFiles tag (filteredFiles tag l) = filteredFiles tag l := by
  intro l
  induction l with
  | nil => rfl
  | cons pr rest ih =>
    by_cases hf : pr.2.filter (fun item => eqIgnoreAsciiCase item.tag tag) = []
    · have hE : filterEntry tag pr = none := by simp [filterEntry, hf]
      simp only [filteredFiles, List.filterMap_cons, hE] at ih ⊢
      exact ih
    · have hE : filterEntry tag pr =
          some (pr.1, pr.2.filter (fun item => eqIgnoreAsciiCase item.tag tag)) := by
        simp [filterEntry, hf]
      have hf2 : (pr.2.filter (fun item => eqIgnoreAsciiCase item.tag tag)).filter
          (fun item => eqIgnoreAsciiCase item.tag tag) ≠ [] := by
        rw [filter_eqIgnore_idem]; exact hf
      have hE2 : filterEntry tag
          (pr.1, pr.2.filter (fun item => eqIgnoreAsciiCase item.tag tag)) =
          some (pr.1, pr.2.filter (fun item => eqIgnoreAsciiCase item.tag tag)) := by
        simp only [filterEntry, filter_eqIgnore_idem]
        simp [hf]
      simp only [filteredFiles, List.filterMap_cons, hE, hE2] at ih ⊢
      rw [ih]

/-- C3 counterexample: on a one-file result, filtering twice by TODO does
not equal filtering once — `filter_by_tag` inherits `files_scanned` and
then `add_file` increments it again for every kept file, so the second
application increases it further. -/
theorem filter_by_tag_not_idempotent :
    ((runAddFiles "r".data [("a".data, [sampleItem])]).filter_by_tag
        ("TODO").data).filter_by_tag ("TODO").data ≠
      (runAddFiles "r".data [("a".data, [sampleItem])]).filter_by_tag ("TODO").data := by
  decide

/-- C3 (amended): for every `ScanResult` whose file keys are pairwise
distinct (the `HashMap` representation invariant), `filter_by_tag` is
idempotent in `files`, `total_count`, `files_with_todos`, `tag_counts` and
`root`; `files_scanned` is not preserved — the second application exceeds
the first by the number of files in the filtered result. -/
theorem filter_by_tag_idem_except_scanned (r : ScanResult) (tag : Chars)
    (h : (r.files.map Prod.fst).Nodup) :
    ((r.filter_by_tag tag).filter_by_tag tag).files = (r.filter_by_tag tag).files ∧
    ((r.filter_by_tag tag).filter_by_tag tag).total_count =
      (r.filter_by_tag tag).total_count ∧
    ((r.filter_by_tag tag).filter_by_tag tag).files_with_todos =
      (r.filter_by_tag tag).files_with_todos ∧
    ((r.filter_by_tag tag).filter_by_tag tag).tag_counts =
      (r.filter_by_tag tag).tag_counts ∧
    ((r.filter_by_tag tag).filter_by_tag tag).root = (r.filter_by_tag tag).root ∧
    ((r.filter_by_tag tag).filter_by_tag tag).files_scanned =
      (r.filter_by_tag tag).files_scanned + (r.filter_by_tag tag).files_with_todos := by
  have h1 := filter_by_tag_spec r tag h
  have hnd2 : ((r.filter_by_tag tag).files.map Prod.fst).Nodup := by
    rw [h1]
    exact (keys_filteredFiles_sublist tag r.files).nodup h
  have h2 := filter_by_tag_spec (r.filter_by_tag tag) tag hnd2
  rw [h2, h1]
  simp [filteredFiles_idem]

/-- C3 witness: the amended statement applied at a concrete one-file
result with distinct keys. -/
theorem filter_by_tag_idem_except_scanned_witness :
    (((runAddFiles "r".data [("a".data, [sampleItem])]).files.map Prod.fst).Nodup) ∧
    (((runAddFiles "r".data [("a".data, [sampleItem])]).filter_by_tag
        ("TODO").data).filter_by_tag ("TODO").data).files =
      ((runAddFiles "r".data [("a".data, [sampleItem])]).filter_by_tag
        ("TODO").data).files ∧
    (((runAddFiles "r".data [("a".data, [sampleItem])]).filter_by_tag
        ("TODO").data).filter_by_tag ("TODO").data).files_scanned =
      ((runAddFiles "r".data [("a".data, [sampleItem])]).filter_by_tag
          ("TODO").data).files_scanned +
        ((runAddFiles "r".data [("a".data, [sampleItem])]).filter_by_tag
          ("TODO").data).files_with_todos :=
  ⟨by decide,
    (filter_by_tag_idem_except_scanned _ ("TODO").data (by decide)).1,
    (filter_by_tag_idem_except_scanned _ ("TODO").data (by decide)).2.2.2.2.2⟩

end TodoTree
